import Mathlib

/-!
Verification development for the taxonomy-matching core of the `rnw`
repository: lexical normalizer, taxonomy loader, TF-IDF similarity index
and detector facade.

Embedding conventions:
* Strings are Lean `String`s; all operations are modelled structurally on
  the underlying character list so that every definition kernel-reduces.
* JavaScript `Number` arithmetic is modelled exactly, over an arbitrary
  `LinearOrderedField K`; the transcendental functions `Math.log`,
  `Math.exp`, `Math.sqrt` are abstracted as a record `MathOps K` of
  functions `K → K`, so every statement below holds in particular for
  `K := ℝ` with the genuine real functions.
* JavaScript `Map` objects (insertion-ordered, last `set` wins) are
  modelled as association lists with in-place update.
-/

namespace RNW

/-! ## Characters and JS string primitives -/

/-- The straight apostrophe character. -/
def apos : Char := Char.ofNat 39

/-- Space character. -/
def spaceChar : Char := Char.ofNat 32

/-- The character class `\s` of JavaScript regular expressions
(whitespace, including no-break space, Unicode spaces, line separators
and the BOM). -/
def isJsWs (c : Char) : Bool :=
  c.val == 32 || c.val == 9 || c.val == 10 || c.val == 11 || c.val == 12 ||
  c.val == 13 || c.val == 160 || c.val == 5760 ||
  (8192 ≤ c.val && c.val ≤ 8202) || c.val == 8232 || c.val == 8233 ||
  c.val == 8239 || c.val == 8287 || c.val == 12288 || c.val == 65279

/-- `String.prototype.trim`: drop JS whitespace from both ends. -/
def trimChars (l : List Char) : List Char :=
  ((l.dropWhile isJsWs).reverse.dropWhile isJsWs).reverse

/-- `line.trim()` on a Lean string. -/
def jsTrim (s : String) : String := String.mk (trimChars s.toList)

/-- `String.prototype.toLowerCase`, modelled on the ASCII range
(`Char.toLower` lowers exactly the letters A-Z; every input exercised by
the specification is ASCII). -/
def jsToLower (s : String) : String := String.mk (s.toList.map Char.toLower)

/-- One step of `text.split(sep)` for a non-empty literal separator:
find the leftmost occurrence of `sep`, returning the piece before it and
the remainder after it. -/
def breakOnSep (sep : List Char) : List Char → Option (List Char × List Char)
  | [] => none
  | c :: rest =>
    if sep.isPrefixOf (c :: rest) then some ([], (c :: rest).drop sep.length)
    else
      match breakOnSep sep rest with
      | none => none
      | some (pre, post) => some (c :: pre, post)

/-- Fuel-driven splitting loop; `l.length` fuel always suffices because a
non-empty separator consumes at least one character per found occurrence. -/
def splitSepGo (sep : List Char) : Nat → List Char → List (List Char)
  | 0, l => [l]
  | Nat.succ fuel, l =>
    match breakOnSep sep l with
    | none => [l]
    | some (pre, post) => pre :: splitSepGo sep fuel post

/-- `text.split(sep)` of JavaScript for a non-empty literal separator. -/
def jsSplit (s : String) (sep : String) : List String :=
  (splitSepGo sep.toList (s.toList.length) s.toList).map String.mk

/-- `text.split(/\r?\n/)`: split on newlines, where each newline may be
preceded by one carriage return that is dropped with it. -/
def splitLinesChars : List Char → List (List Char)
  | [] => [[]]
  | c :: rest =>
    let acc := splitLinesChars rest
    if c.val == 10 then [] :: acc
    else (c :: acc.headD []) :: acc.tail

/-- The line list of `taxonomyText.split(/\r?\n/)`. -/
def splitLines (text : String) : List String :=
  (splitLinesChars text.toList).map
    (fun l => String.mk (if l.getLast? == some (Char.ofNat 13) then l.dropLast else l))

/-- `needle.isPrefixOf`-based model of `haystack.includes(needle)`. -/
def containsSub (needle : List Char) : List Char → Bool
  | [] => needle.isEmpty
  | c :: rest => needle.isPrefixOf (c :: rest) || containsSub needle rest

/-! ## Lexical normalizer (source: `normalize` in the similarity index) -/

/-- The character class kept by the stripping step: the source replaces
everything outside lowercase letters, digits, JS whitespace, the
straight apostrophe, plus, ampersand, slash and hyphen by a space. -/
def keepChar (c : Char) : Bool :=
  c.isLower || c.isDigit || isJsWs c ||
  c == apos || c.val == 43 || c.val == 38 || c.val == 47 || c.val == 45

/-- Replace every curly quote (U+2018, U+2019) by a straight apostrophe. -/
def quoteChar (c : Char) : Char :=
  if c.val == 8216 || c.val == 8217 then apos else c

/-- The per-character stripping step: keep the kept class, map the rest
to a space. -/
def stripChar (c : Char) : Char := if keepChar c then c else spaceChar

/-- Map every JS whitespace character to a plain space. -/
def wsChar (c : Char) : Char := if isJsWs c then spaceChar else c

/-- Collapse maximal runs of spaces to a single space (structural
recursion; every whitespace character has already been mapped to a
space, so this computes exactly `.replace(/\s+/g, " ")`). -/
def squeezeSpaces : List Char → List Char
  | [] => []
  | [c] => [c]
  | a :: b :: rest =>
    if a == spaceChar && b == spaceChar then squeezeSpaces (b :: rest)
    else a :: squeezeSpaces (b :: rest)

/-- The `.replace(/\s+/g, " ")` step: each maximal run of JS whitespace
becomes one space. -/
def collapseWs (l : List Char) : List Char := squeezeSpaces (l.map wsChar)

/-- `normalize(text)` of the similarity index: lowercase, straighten
curly quotes, strip to the kept character class, collapse whitespace
runs, trim. -/
def normalize (s : String) : String :=
  String.mk (trimChars (collapseWs ((s.toList.map Char.toLower).map (fun c => stripChar (quoteChar c)))))

/-- The token-character class `[a-z0-9+]` used by the tokenizer split. -/
def isTokChar (c : Char) : Bool := c.isLower || c.isDigit || c.val == 43

/-- Split at every character outside `[a-z0-9+]` (the JS split on the
regex `[^a-z0-9+]+` produces the same non-trivial pieces: splitting at
every separator character only adds empty pieces, which the length
filter of `tokenize` removes). -/
def splitNonTok : List Char → List (List Char)
  | [] => [[]]
  | c :: rest =>
    let acc := splitNonTok rest
    if isTokChar c then (c :: acc.headD []) :: acc.tail
    else [] :: acc

/-- `DEFAULT_STOPWORDS` of the source (duplicates are harmless: the set
only answers membership). -/
def stopwords : List String :=
  [("a"), ("an"), ("the"), ("and"), ("or"), ("but"), ("for"), ("nor"), ("so"), ("of"),
   ("in"), ("on"), ("to"), ("with"), ("by"), ("at"), ("from"),
   ("is"), ("are"), ("was"), ("were"), ("be"), ("been"), ("being"),
   ("this"), ("that"), ("these"), ("those"), ("it"), ("its"), ("as"), ("if"), ("than"),
   ("too"), ("very"), ("can"), ("will"), ("just"),
   ("new"), ("used"), ("like"), ("grade"), ("refurbished"), ("sale"), ("deal"),
   ("bundle"), ("set"), ("pack"), ("compatible"),
   ("gb"), ("tb"), ("inch"), ("inches"), ("mm"), ("cm"), ("xl"), ("xxl"), ("pro"),
   ("max"), ("mini"), ("ultra"), ("series"), ("gen"), ("generation")]

/-- `tokenize(text)`: normalize, split on non-token characters, keep
pieces of length above one that are not stopwords. -/
def tokenize (s : String) : List String :=
  (((splitNonTok (normalize s).toList).map String.mk).filter
      (fun t => 1 < t.length)).filter (fun t => !(stopwords.contains t))

/-! ## Taxonomy entries and the loader
(source: `parseTaxonomyText` in `detectCategory.ts`) -/

structure TaxonomyEntry where
  id : Nat
  path : String
  leaf : String
  depth : Nat
deriving DecidableEq

/-- Digits-to-number conversion, `Number(match[1])`. -/
def natOfDigits (ds : List Char) : Nat :=
  ds.foldl (fun n c => 10 * n + (c.val.toNat - 48)) 0

/-- Matching of the anchored regex `^(\d+)\s*-\s*(.+)$` against an
already-trimmed line: at least one digit, optional whitespace, a hyphen,
optional whitespace, then at least one remaining character; `.` does not
match the line terminators LF, CR, U+2028, U+2029, so a match exists only
when the remainder is free of them.  Returns `Number(match[1])` and
`match[2]` (the remainder after the greedy `\s*`). -/
def matchIdLine (trimmed : String) : Option (Nat × String) :=
  let cs := trimmed.toList
  let ds := cs.takeWhile Char.isDigit
  if ds.isEmpty then none
  else
    let rest := (cs.dropWhile Char.isDigit).dropWhile isJsWs
    match rest with
    | [] => none
    | c :: rest2 =>
      if c.val == 45 then
        let body := rest2.dropWhile isJsWs
        if body.isEmpty then none
        else if body.any (fun d => d.val == 10 || d.val == 13 || d.val == 8232 || d.val == 8233) then none
        else some (natOfDigits ds, String.mk body)
      else none

/-- The breadcrumb segments of a path: `path.split(" > ").map(s => s.trim())`. -/
def segmentsOf (path : String) : List String := (jsSplit path (" > ")).map jsTrim

/-- Per-line parsing shared by both taxonomy parsers: skip empty,
whitespace-only, comment (`#`) and regex-non-matching lines; otherwise
build the entry with `leaf` the last trimmed segment and `depth` the
segment count. -/
def entryOfLineCore (line : String) : Option TaxonomyEntry :=
  if (jsTrim line).isEmpty then none
  else if (jsTrim line).toList.headD spaceChar == Char.ofNat 35 then none
  else
    match matchIdLine (jsTrim line) with
    | none => none
    | some (id, rawPath) =>
      some ⟨id, jsTrim rawPath, (segmentsOf (jsTrim rawPath)).getLastD (""),
        (segmentsOf (jsTrim rawPath)).length⟩

/-- Per-line parsing of `parseTaxonomyText` in `detectCategory.ts`: on
top of the shared per-line parsing, the prototype additionally drops
every entry whose first breadcrumb segment is not `Electronics`
(the source comment: the rough prototype may limit the categories). -/
def entryOfLine (line : String) : Option TaxonomyEntry :=
  match entryOfLineCore line with
  | none => none
  | some e =>
    if (segmentsOf e.path).headD ("") = ("Electronics") then some e else none

/-- `parseTaxonomyText` of `detectCategory.ts`: split into lines, parse
each, collect the produced entries in order. -/
def parseTaxonomyText (text : String) : List TaxonomyEntry :=
  (splitLines text).filterMap entryOfLine

/-- `specSkippable line` is the skip condition exactly as the
specification words it: the line is empty or whitespace-only after
trimming, starts with `#`, or fails to match `^\d+\s*-\s*.+$`. -/
def specSkippable (line : String) : Bool :=
  (jsTrim line).isEmpty || (jsTrim line).toList.headD spaceChar == Char.ofNat 35 ||
    (matchIdLine (jsTrim line)).isNone

/-! ## The id-keyed snapshot map
(source: `getPossibleCategories` in `detectCategory.ts`) -/

/-- `Map.prototype.set`: replace the value in place when the key is
present, append otherwise (JS Maps keep the original insertion position
of an overwritten key). -/
def mapSet (m : List (Nat × TaxonomyEntry)) (k : Nat) (v : TaxonomyEntry) :
    List (Nat × TaxonomyEntry) :=
  match m with
  | [] => [(k, v)]
  | (k0, v0) :: rest => if k0 = k then (k0, v) :: rest else (k0, v0) :: mapSet rest k v

/-- The `possibleCategoriesCache` map: `entries.forEach(e => map.set(e.id, e))`. -/
def buildCategoryMap (es : List TaxonomyEntry) : List (Nat × TaxonomyEntry) :=
  es.foldl (fun m e => mapSet m e.id e) []

/-! ## The similarity index (source: `TaxonomyDetector`)

Numbers are an arbitrary linear ordered field `K`; `Math.log`,
`Math.exp` and `Math.sqrt` are the fields of a `MathOps K` record, so
every theorem holds in particular over `K := ℝ` with the real
functions.  Sparse vectors (JS `Map` token to weight, insertion
ordered) are association lists with distinct keys; iteration order
never influences a result because all accumulations are commutative
sums in exact arithmetic. -/

structure MathOps (K : Type) where
  log : K → K
  exp : K → K
  sqrt : K → K

structure DetectorOptions (K : Type) where
  topK : Nat
  temperature : K
  enableHeuristics : Bool
  minDepth : Nat
deriving DecidableEq

structure Candidate (K : Type) where
  id : Nat
  path : String
  leaf : String
  depth : Nat
  score : K
  probability : K
deriving DecidableEq

/-- The private state of a `TaxonomyDetector` object. -/
structure DetectorState (K : Type) where
  entries : List TaxonomyEntry
  idf : List (String × K)
  vectors : List (List (String × K))
  tokenDocFreq : List (String × Nat)

/-- A freshly constructed `new TaxonomyDetector()`: every field empty. -/
def initState (K : Type) : DetectorState K := ⟨[], [], [], []⟩

inductive DetectError where
  | notReady : DetectError
  | noMatch : DetectError
deriving DecidableEq

/-- The default option values of `detect`. -/
def defaultOptions (K : Type) [LinearOrderedField K] : DetectorOptions K :=
  ⟨8, 7/10, true, 1⟩

variable {K : Type} [LinearOrderedField K]

/-- `tf.set(t, (tf.get(t) || 0) + 1)` accumulation: bump the count of a
token, keeping the first-insertion position, appending new tokens. -/
def bumpCount : List (String × Nat) → String → List (String × Nat)
  | [], t => [(t, 1)]
  | (k, v) :: rest, t =>
    if k = t then (k, v + 1) :: rest else (k, v) :: bumpCount rest t

/-- The term-frequency map of a token list. -/
def countTokens (ts : List String) : List (String × Nat) := ts.foldl bumpCount []

/-- `this.idf.get(t) || 0`: unseen tokens contribute zero weight. -/
def idfLookup (idfT : List (String × K)) (t : String) : K :=
  (List.lookup t idfT).getD 0

/-- Log-normalized term frequency: `tf.set(t, 1 + Math.log(f))`. -/
def logTf (ops : MathOps K) (tf : List (String × Nat)) : List (String × K) :=
  tf.map (fun p => (p.1, 1 + ops.log (p.2 : K)))

/-- The un-normalized tf-idf vector: weight `tfLog * idf` per token,
tokens of zero weight skipped (`if (weight === 0) continue`). -/
def rawTfIdf (ops : MathOps K) (idfT : List (String × K)) (tokens : List String) :
    List (String × K) :=
  (logTf ops (countTokens tokens)).filterMap (fun p =>
    let w := p.2 * idfLookup idfT p.1
    if w = 0 then none else some (p.1, w))

/-- The accumulated `normSq`: the sum of squared weights of a sparse
vector. -/
def sumSquares (v : List (String × K)) : K := (v.map (fun p => p.2 * p.2)).sum

/-- `tfIdfVector(tokens)`: build the raw vector, then divide every
weight by `Math.sqrt(normSq) || 1`. -/
def tfIdfVector (ops : MathOps K) (idfT : List (String × K)) (tokens : List String) :
    List (String × K) :=
  let vec := rawTfIdf ops idfT tokens
  let n0 := ops.sqrt (sumSquares vec)
  let norm := if n0 = 0 then 1 else n0
  vec.map (fun p => (p.1, p.2 / norm))

/-- `categoryTokens(e)`: tokenize every breadcrumb segment of the path
independently and concatenate. -/
def categoryTokens (e : TaxonomyEntry) : List String :=
  ((jsSplit e.path (" > ")).map tokenize).flatten

/-- Document frequency: for each entry document, count each token once
(`new Set(doc)` models as first-occurrence deduplication; only the
counts matter). -/
def docFreqOf (docs : List (List String)) : List (String × Nat) :=
  docs.foldl (fun m doc => doc.eraseDups.foldl bumpCount m) []

/-- `ingest(entries)`: rebuild the whole index from scratch; the prior
state is discarded, so the model is a function of the entries only. -/
def ingestD (ops : MathOps K) (entries : List TaxonomyEntry) : DetectorState K :=
  let docs := entries.map categoryTokens
  let docFreq := docFreqOf docs
  let idfT := docFreq.map (fun p =>
    (p.1, ops.log (((entries.length + 1 : Nat) : K) / ((p.2 + 1 : Nat) : K)) + 1))
  ⟨entries, idfT, docs.map (tfIdfVector ops idfT), docFreq⟩

/-- The dot product iterated over the first list, looking weights up in
the second. -/
def dotList (small big : List (String × K)) : K :=
  (small.map (fun p =>
    match List.lookup p.1 big with
    | some w2 => p.2 * w2
    | none => 0)).sum

/-- `cosineSim(v1, v2)`: iterate over the smaller map for speed; both
vectors are already L2-normalized, so the dot product is returned
directly. -/
def cosineSim (v1 v2 : List (String × K)) : K :=
  if v1.length ≤ v2.length then dotList v1 v2 else dotList v2 v1

/-- `Math.max(...scores)` over a non-empty list (on the empty list JS
yields minus infinity, but `softmax` never consults the maximum of an
empty list: the mapped list is empty too, so the model returns 0 there). -/
def listMax : List K → K
  | [] => 0
  | c :: rest => rest.foldl max c

/-- The exponentials of the shifted, temperature-scaled scores:
`Math.exp((s - max) / Math.max(temperature, 1e-4))`. -/
def softmaxExps (ops : MathOps K) (temperature : K) (scores : List K) : List K :=
  let t := max temperature (1/10000)
  let m := listMax scores
  scores.map (fun s => ops.exp ((s - m) / t))

/-- The softmax denominator: the sum of the exponentials. -/
def softmaxDenom (ops : MathOps K) (temperature : K) (scores : List K) : K :=
  (softmaxExps ops temperature scores).sum

/-- `softmax(scores, temperature)`: normalize by the sum, or return all
zeros when the sum is exactly zero (`sum === 0 ? 0 : e / sum`). -/
def softmaxD (ops : MathOps K) (temperature : K) (scores : List K) : List K :=
  let exps := softmaxExps ops temperature scores
  let sum := exps.sum
  exps.map (fun e => if sum = 0 then 0 else e / sum)

/-- The query vector of `detect`: the title tokens weighted with the
stored idf table, like a category vector. -/
def queryVec (ops : MathOps K) (st : DetectorState K) (title : String) :
    List (String × K) :=
  tfIdfVector ops st.idf (tokenize title)

/-- The three heuristic adjustments of `detect`, applied in source
order: capped depth boost, exact-leaf-phrase boost, shallow penalty. -/
def adjustScore (opts : DetectorOptions K) (e : TaxonomyEntry) (title : String)
    (s0 : K) : K :=
  if opts.enableHeuristics then
    let s1 := s0 * min (1 + ((e.depth : K) - 1) * (6/100)) (135/100)
    let leafLower := jsToLower e.leaf
    let s2 :=
      if 3 < leafLower.length ∧
          containsSub leafLower.toList (jsToLower title).toList = true then
        s1 + 15/100
      else s1
    if e.depth ≤ 2 then s2 * (92/100) else s2
  else s0

/-- An entry of the score array together with its entry index.  The JS
code stores `-Infinity` for entries below `minDepth` and later drops
them with the `Number.isFinite` filter; the model drops them at once by
returning `none` (every genuine score is finite in exact arithmetic). -/
structure Scored (K : Type) where
  idx : Nat
  entry : TaxonomyEntry
  score : K
deriving DecidableEq

/-- Score one `(index, (entry, vector))` triple of the iteration. -/
def scoreEntry (opts : DetectorOptions K)
    (qVec : List (String × K)) (title : String)
    (p : Nat × (TaxonomyEntry × List (String × K))) : Option (Scored K) :=
  if p.2.1.depth < opts.minDepth then none
  else some ⟨p.1, p.2.1, adjustScore opts p.2.1 title (cosineSim qVec p.2.2)⟩

/-- All finite scored entries, in entry order. -/
def scoredList (ops : MathOps K) (st : DetectorState K) (title : String)
    (opts : DetectorOptions K) : List (Scored K) :=
  (st.entries.zip st.vectors).enum.filterMap
    (scoreEntry opts (queryVec ops st title) title)

/-- The order produced by the JS stable sort with comparator
`(a, b) => scores[b] - scores[a]`: descending score, and ascending
original index among equal scores.  Because the indices are pairwise
distinct this is a total order with a unique sorted arrangement, so any
sorting algorithm realises the stable result; insertion sort is used
because it is structurally recursive. -/
def scoredRel (a b : Scored K) : Prop :=
  b.score < a.score ∨ (a.score = b.score ∧ a.idx ≤ b.idx)

instance : DecidableRel (scoredRel (K := K)) := fun _ _ =>
  inferInstanceAs (Decidable (_ ∨ _))

/-- The ranked index list: all finite scores sorted as above. -/
def rankScored (l : List (Scored K)) : List (Scored K) :=
  List.insertionSort scoredRel l

/-- The selected top slice: ranked finite scores, first `topK`. -/
def detectTop (ops : MathOps K) (st : DetectorState K) (title : String)
    (opts : DetectorOptions K) : List (Scored K) :=
  (rankScored (scoredList ops st title opts)).take opts.topK

/-- The candidate list of a successful `detect` call: the top slice
paired positionally with its softmax probabilities
(`idx.map((i, j) => ...)` is a positional zip). -/
def detectCands (ops : MathOps K) (st : DetectorState K) (title : String)
    (opts : DetectorOptions K) : List (Candidate K) :=
  let top := detectTop ops st title opts
  top.zipWith
    (fun sc p => ⟨sc.entry.id, sc.entry.path, sc.entry.leaf, sc.entry.depth, sc.score, p⟩)
    (softmaxD ops opts.temperature (top.map (fun sc => sc.score)))

/-- `detect(title, opts)`: fail with the not-ready condition when no
entries are loaded, otherwise rank, take the top `topK`, convert the
selected scores to probabilities by temperature softmax and emit the
candidates in rank order. -/
def detectD (ops : MathOps K) (st : DetectorState K) (title : String)
    (opts : DetectorOptions K) : Except DetectError (List (Candidate K)) :=
  if st.entries.isEmpty then Except.error DetectError.notReady
  else Except.ok (detectCands ops st title opts)

/-! ## Detector facade -/

/-- The best single category returned by the facade. -/
structure Category where
  id : Nat
  path : String
deriving DecidableEq

/-- The fixed options of the facade query: `topK = 6`, `minDepth = 2`,
the remaining fields at their `detect` defaults. -/
def facadeOpts (K : Type) [LinearOrderedField K] : DetectorOptions K :=
  ⟨6, 7/10, true, 2⟩

/-- Modelled from the spec: the Detector Facade (`detectCategory`) of
the taxonomy-matching core is not under `src/` (the checked-in
`detectCategory.ts` delegates category choice to an external AI call
instead; the matcher facade survives only in commit history), so this
definition follows section 4.4 of the specification: obtain the
taxonomy entries once (fetching and caching are external), build the
index via `ingest`, query `detect` with the fixed defaults
`topK = 6, minDepth = 2`, and return the top-ranked candidate's id and
path, failing with `NoMatch` when `detect` returns an empty sequence. -/
def detectCategoryM (ops : MathOps K) (entries : List TaxonomyEntry)
    (title : String) : Except DetectError Category :=
  match detectD ops (ingestD ops entries) title (facadeOpts K) with
  | Except.error e => Except.error e
  | Except.ok [] => Except.error DetectError.noMatch
  | Except.ok (c :: _) => Except.ok ⟨c.id, c.path⟩

/-! ## Spec-side comparison definitions -/

/-- The character set that claim C7 (specification section 4.1) allows
in normalizer output: letters, digits, whitespace, and exactly the four
whitelist characters plus, ampersand, slash, hyphen. -/
def specC7Allowed (c : Char) : Bool :=
  c.isAlpha || c.isDigit || isJsWs c ||
  c.val == 43 || c.val == 38 || c.val == 47 || c.val == 45

/-- The amended character set: the code's whitelist additionally keeps
the straight apostrophe. -/
def specC7AllowedAmended (c : Char) : Bool := specC7Allowed c || c == apos

/-- Dummy instantiation of the transcendental functions over ℚ, used
only to exercise the model on concrete inputs where the results do not
depend on the actual `log`, `exp`, `sqrt` values (`exp` constantly one
matches `Math.exp 0` exactly on inputs whose selected scores all tie). -/
def qOps : MathOps ℚ := ⟨fun _ => 0, fun _ => 1, fun _ => 0⟩

/-- The real instantiation: `K := ℝ` with the genuine functions. -/
noncomputable def realOps : MathOps ℝ := ⟨Real.log, Real.exp, Real.sqrt⟩

/-! ### Concrete scenario data

Small entry sets used to exercise the model on closed inputs.  The
titles are chosen so that the query token either misses every category
token (all cosine similarities are exactly 0 and every shifted softmax
exponent is `exp 0`, making the dummy `qOps` agree with the genuine
functions on the whole run) or is matched with weight-1 vectors. -/

def entA : TaxonomyEntry := ⟨1, ("A > A2"), ("A2"), 2⟩
def entB : TaxonomyEntry := ⟨2, ("B > B2"), ("B2"), 2⟩
def entE : TaxonomyEntry := ⟨1, ("Electronics > Phones"), ("Phones"), 2⟩
def entPh : TaxonomyEntry := ⟨1, ("Phones"), ("Phones"), 1⟩

/-! ## General helper lemmas -/

theorem sum_map_div (l : List K) (c : K) :
    (l.map (fun x => x / c)).sum = l.sum / c := by
  induction l with
  | nil => simp
  | cons a t ih => simp [ih, div_add_div_same]

theorem zipWith_left_proj {α β γ : Type} (f : α → γ) (l : List α) (l' : List β)
    (h : l.length ≤ l'.length) :
    List.zipWith (fun a _ => f a) l l' = l.map f := by
  induction l generalizing l' with
  | nil => simp
  | cons a t ih =>
    cases l' with
    | nil => simp at h
    | cons b t' =>
      simp only [List.zipWith_cons_cons, List.map_cons]
      exact congrArg _ (ih t' (by simpa using h))

theorem zipWith_right_proj {α β : Type} (l : List α) (l' : List β)
    (h : l'.length ≤ l.length) :
    List.zipWith (fun _ b => b) l l' = l' := by
  induction l generalizing l' with
  | nil => cases l' <;> simp_all
  | cons a t ih =>
    cases l' with
    | nil => simp
    | cons b t' =>
      simp only [List.zipWith_cons_cons]
      exact congrArg _ (ih t' (by simpa using h))

theorem mem_zipWith {α β γ : Type} {f : α → β → γ} {l : List α} {l' : List β} {c : γ}
    (h : c ∈ List.zipWith f l l') : ∃ a ∈ l, ∃ b ∈ l', c = f a b := by
  induction l generalizing l' with
  | nil => simp at h
  | cons a t ih =>
    cases l' with
    | nil => simp at h
    | cons b t' =>
      simp only [List.zipWith_cons_cons, List.mem_cons] at h
      rcases h with h | h
      · exact ⟨a, List.mem_cons_self a t, b, List.mem_cons_self b t', h⟩
      · obtain ⟨x, hx, y, hy, hc⟩ := ih h
        exact ⟨x, List.mem_cons_of_mem _ hx, y, List.mem_cons_of_mem _ hy, hc⟩

theorem pairwise_zipWith {α β γ : Type} {R : α → α → Prop} {S : γ → γ → Prop}
    {f : α → β → γ} {l : List α} {l' : List β}
    (hp : List.Pairwise R l)
    (himp : ∀ a b p q, R a b → S (f a p) (f b q)) :
    List.Pairwise S (List.zipWith f l l') := by
  induction l generalizing l' with
  | nil => simp
  | cons a t ih =>
    cases l' with
    | nil => simp
    | cons b t' =>
      rcases hp with _ | ⟨ha, hp⟩
      refine List.Pairwise.cons ?_ (ih hp)
      intro c hc
      obtain ⟨x, hx, y, _, rfl⟩ := mem_zipWith hc
      exact himp a x b y (ha x hx)

/-- Keys produced by a `filterMap` that preserves the first component
form a sublist of the first components. -/
theorem filterMap_map_sublist {α β γ : Type} (l : List α) (f : α → Option β)
    (g : β → γ) (h : α → γ) (hpres : ∀ a b, f a = some b → g b = h a) :
    ((l.filterMap f).map g).Sublist (l.map h) := by
  induction l with
  | nil => simp
  | cons a t ih =>
    cases hfa : f a with
    | none => simp only [List.filterMap_cons, hfa, List.map_cons]
              exact ih.cons _
    | some b => simp only [List.filterMap_cons, hfa, List.map_cons, hpres a b hfa]
                exact ih.cons₂ _

/-! ## Softmax lemmas -/

theorem length_softmaxExps (ops : MathOps K) (t : K) (l : List K) :
    (softmaxExps ops t l).length = l.length := by
  simp [softmaxExps]

theorem length_softmaxD (ops : MathOps K) (t : K) (l : List K) :
    (softmaxD ops t l).length = l.length := by
  simp [softmaxD, length_softmaxExps]

theorem softmaxD_sum_one (ops : MathOps K) (t : K) (l : List K)
    (h : softmaxDenom ops t l ≠ 0) : (softmaxD ops t l).sum = 1 := by
  unfold softmaxD
  unfold softmaxDenom at h
  rw [show ((softmaxExps ops t l).map
        (fun e => if (softmaxExps ops t l).sum = 0 then 0 else e / (softmaxExps ops t l).sum)) =
      ((softmaxExps ops t l).map (fun e => e / (softmaxExps ops t l).sum)) from
    List.map_congr_left (fun e _ => if_neg h)]
  rw [sum_map_div]
  exact div_self h

theorem softmaxD_all_zero (ops : MathOps K) (t : K) (l : List K)
    (h : softmaxDenom ops t l = 0) : ∀ p ∈ softmaxD ops t l, p = 0 := by
  unfold softmaxDenom at h
  intro p hp
  unfold softmaxD at hp
  obtain ⟨e, _, rfl⟩ := List.mem_map.mp hp
  exact if_pos h

/-! ## Ranking lemmas -/

instance : IsTrans (Scored K) scoredRel := by
  constructor
  intro a b c hab hbc
  rcases hab with h1 | ⟨h1, h1i⟩ <;> rcases hbc with h2 | ⟨h2, h2i⟩
  · exact Or.inl (lt_trans h2 h1)
  · exact Or.inl (h2 ▸ h1)
  · exact Or.inl (h1 ▸ h2)
  · exact Or.inr ⟨h1.trans h2, h1i.trans h2i⟩

instance : IsTotal (Scored K) scoredRel := by
  constructor
  intro a b
  rcases lt_trichotomy a.score b.score with h | h | h
  · exact Or.inr (Or.inl h)
  · rcases Nat.le_total a.idx b.idx with hi | hi
    · exact Or.inl (Or.inr ⟨h, hi⟩)
    · exact Or.inr (Or.inr ⟨h.symm, hi⟩)
  · exact Or.inl (Or.inl h)

theorem rankScored_pairwise (l : List (Scored K)) :
    List.Pairwise scoredRel (rankScored l) :=
  List.sorted_insertionSort scoredRel l

theorem rankScored_perm (l : List (Scored K)) : (rankScored l).Perm l :=
  List.perm_insertionSort scoredRel l

/-- Every scored element originates from the iteration over the zipped
entry/vector list at its entry index, and survives the depth filter. -/
theorem mem_scoredList {ops : MathOps K} {st : DetectorState K} {title : String}
    {opts : DetectorOptions K} {sc : Scored K}
    (h : sc ∈ scoredList ops st title opts) :
    ¬ sc.entry.depth < opts.minDepth ∧
    ∃ v, (st.entries.zip st.vectors)[sc.idx]? = some (sc.entry, v) := by
  obtain ⟨p, hp, hsome⟩ := List.mem_filterMap.mp h
  obtain ⟨hlt, hx⟩ := List.mem_enum hp
  by_cases hd : p.2.1.depth < opts.minDepth
  · simp [scoreEntry, hd] at hsome
  · simp only [scoreEntry, if_neg hd] at hsome
    obtain rfl := Option.some.inj hsome
    refine ⟨hd, p.2.2, ?_⟩
    rw [List.getElem?_eq_getElem hlt, ← hx]

/-- The entry indices of the scored list are pairwise distinct. -/
theorem scoredList_idx_nodup (ops : MathOps K) (st : DetectorState K)
    (title : String) (opts : DetectorOptions K) :
    ((scoredList ops st title opts).map (fun sc => sc.idx)).Nodup := by
  have hs : (((st.entries.zip st.vectors).enum.filterMap
        (scoreEntry opts (queryVec ops st title) title)).map (fun sc => sc.idx)).Sublist
      ((st.entries.zip st.vectors).enum.map Prod.fst) := by
    refine filterMap_map_sublist _ _ _ _ ?_
    intro p sc hsome
    by_cases hd : p.2.1.depth < opts.minDepth
    · simp [scoreEntry, hd] at hsome
    · simp only [scoreEntry, if_neg hd] at hsome
      obtain rfl := Option.some.inj hsome
      rfl
  have hn : ((st.entries.zip st.vectors).enum.map Prod.fst).Nodup := by
    rw [List.enum_map_fst]
    exact List.nodup_range _
  exact List.Sublist.nodup hs hn

/-! ## Structure of a successful detect call -/

theorem detectD_ok {ops : MathOps K} {st : DetectorState K} {title : String}
    {opts : DetectorOptions K} {cs : List (Candidate K)}
    (h : detectD ops st title opts = Except.ok cs) :
    cs = detectCands ops st title opts := by
  unfold detectD at h
  by_cases he : st.entries.isEmpty
  · rw [if_pos he] at h
    exact absurd h (by simp)
  · rw [if_neg he] at h
    exact (Except.ok.inj h).symm

theorem mem_detectTop {ops : MathOps K} {st : DetectorState K} {title : String}
    {opts : DetectorOptions K} {sc : Scored K}
    (h : sc ∈ detectTop ops st title opts) : sc ∈ scoredList ops st title opts := by
  unfold detectTop at h
  exact (rankScored_perm _).mem_iff.mp ((List.take_sublist _ _).mem h)

theorem length_detectTop_scores (ops : MathOps K) (st : DetectorState K)
    (title : String) (opts : DetectorOptions K) :
    (softmaxD ops opts.temperature
        ((detectTop ops st title opts).map (fun sc => sc.score))).length =
      (detectTop ops st title opts).length := by
  rw [length_softmaxD, List.length_map]

theorem detectCands_scores (ops : MathOps K) (st : DetectorState K)
    (title : String) (opts : DetectorOptions K) :
    (detectCands ops st title opts).map (fun c => c.score) =
      (detectTop ops st title opts).map (fun sc => sc.score) := by
  unfold detectCands
  rw [List.map_zipWith]
  exact zipWith_left_proj _ _ _ (le_of_eq (length_detectTop_scores ops st title opts).symm)

theorem detectCands_probs (ops : MathOps K) (st : DetectorState K)
    (title : String) (opts : DetectorOptions K) :
    (detectCands ops st title opts).map (fun c => c.probability) =
      softmaxD ops opts.temperature
        ((detectTop ops st title opts).map (fun sc => sc.score)) := by
  unfold detectCands
  rw [List.map_zipWith]
  exact zipWith_right_proj _ _ (le_of_eq (length_detectTop_scores ops st title opts))

theorem mem_detectCands {ops : MathOps K} {st : DetectorState K} {title : String}
    {opts : DetectorOptions K} {c : Candidate K}
    (h : c ∈ detectCands ops st title opts) :
    ∃ sc ∈ detectTop ops st title opts, ∃ p : K,
      c = ⟨sc.entry.id, sc.entry.path, sc.entry.leaf, sc.entry.depth, sc.score, p⟩ := by
  unfold detectCands at h
  obtain ⟨sc, hsc, p, _, rfl⟩ := mem_zipWith h
  exact ⟨sc, hsc, p, rfl⟩

/-! ## Claim theorems -/

/-- C4: `detect` on a freshly constructed, never-ingested index (the
initial state: no entries loaded) fails with the `NotReady` error for
every title and option set; in particular it never returns an empty
candidate list there. -/
theorem c4_not_ready (ops : MathOps K) (title : String) (opts : DetectorOptions K) :
    detectD ops (initState K) title opts = Except.error DetectError.notReady := rfl

/-- C2: whatever entry set was ingested, whatever the title and the
remaining options, no candidate returned by `detect` has
`depth < minDepth`: such entries are excluded from consideration
entirely, regardless of textual similarity. -/
theorem c2_depth_filter (ops : MathOps K) (entries : List TaxonomyEntry)
    (title : String) (opts : DetectorOptions K) (cs : List (Candidate K))
    (h : detectD ops (ingestD ops entries) title opts = Except.ok cs) :
    ∀ c ∈ cs, opts.minDepth ≤ c.depth := by
  intro c hc
  rw [detectD_ok h] at hc
  obtain ⟨sc, hsc, p, rfl⟩ := mem_detectCands hc
  have hmem := mem_scoredList (mem_detectTop hsc)
  exact Nat.le_of_not_lt hmem.1

/-- C3: for every successful `detect` call, when the softmax
denominator of the selected scores is non-zero (the non-degenerate
case — with the genuine exponential it always is), the returned
probabilities sum to exactly 1 (exact arithmetic subsumes the 1e-6
tolerance); and when the denominator is exactly zero, every returned
probability is zero — no division is performed. -/
theorem c3_probability_mass (ops : MathOps K) (st : DetectorState K)
    (title : String) (opts : DetectorOptions K) (cs : List (Candidate K))
    (h : detectD ops st title opts = Except.ok cs) :
    (softmaxDenom ops opts.temperature (cs.map (fun c => c.score)) ≠ 0 →
      (cs.map (fun c => c.probability)).sum = 1) ∧
    (softmaxDenom ops opts.temperature (cs.map (fun c => c.score)) = 0 →
      ∀ c ∈ cs, c.probability = 0) := by
  obtain rfl := detectD_ok h
  rw [detectCands_scores, detectCands_probs]
  constructor
  · intro hd
    exact softmaxD_sum_one ops opts.temperature _ hd
  · intro hd c hc
    exact softmaxD_all_zero ops opts.temperature _ hd c.probability
      (by rw [← detectCands_probs]; exact List.mem_map_of_mem _ hc)

/-- C5: the facade operation (modelled from the spec, §4.4) builds the
index by `ingest` over the once-obtained entry snapshot and queries
`detect` with the fixed options `topK = 6`, `minDepth = 2`; it returns
the top-ranked candidate's id and path, and it fails with `NoMatch`
exactly when `detect` returns an empty candidate sequence — an empty
result is never silently converted into a default category. -/
theorem c5_facade (ops : MathOps K) (entries : List TaxonomyEntry) (title : String) :
    (facadeOpts K).topK = 6 ∧ (facadeOpts K).minDepth = 2 ∧
    (∀ c cs, detectD ops (ingestD ops entries) title (facadeOpts K) = Except.ok (c :: cs) →
        detectCategoryM ops entries title = Except.ok ⟨c.id, c.path⟩) ∧
    (detectCategoryM ops entries title = Except.error DetectError.noMatch ↔
      detectD ops (ingestD ops entries) title (facadeOpts K) = Except.ok []) := by
  refine ⟨rfl, rfl, ?_, ?_⟩
  · intro c cs h
    unfold detectCategoryM
    rw [h]
  · unfold detectCategoryM
    cases hd : detectD ops (ingestD ops entries) title (facadeOpts K) with
    | error e =>
      have he : e = DetectError.notReady := by
        unfold detectD at hd
        split at hd
        · exact (Except.error.inj hd).symm
        · exact absurd hd (by simp)
      subst he
      simp
    | ok cs =>
      cases cs with
      | nil => simp
      | cons c rest => simp

/-! ## Vector normalization -/

theorem rawTfIdf_ne_zero {ops : MathOps K} {idfT : List (String × K)}
    {tokens : List String} : ∀ p ∈ rawTfIdf ops idfT tokens, p.2 ≠ 0 := by
  intro p hp
  obtain ⟨q, _, hsome⟩ := List.mem_filterMap.mp hp
  by_cases hw : q.2 * idfLookup idfT q.1 = 0
  · simp [hw] at hsome
  · simp only [if_neg hw] at hsome
    obtain rfl := Option.some.inj hsome
    exact hw

theorem sumSquares_nonneg (v : List (String × K)) : 0 ≤ sumSquares v :=
  List.sum_nonneg (by
    intro x hx
    obtain ⟨p, _, rfl⟩ := List.mem_map.mp hx
    exact mul_self_nonneg p.2)

theorem sumSquares_map_div (v : List (String × K)) (c : K) :
    sumSquares (v.map (fun p => (p.1, p.2 / c))) = sumSquares v / (c * c) := by
  induction v with
  | nil => simp [sumSquares]
  | cons a t ih =>
    simp only [sumSquares, List.map_cons, List.sum_cons] at ih ⊢
    rw [ih, div_mul_div_comm, div_add_div_same]

/-- The squared Euclidean norm of a built tf-idf vector is 1 when the
vector is non-empty and 0 when it is empty. -/
theorem tfIdfVector_normSq (ops : MathOps K) (idfT : List (String × K))
    (tokens : List String)
    (hsq : ∀ x : K, 0 ≤ x → 0 ≤ ops.sqrt x ∧ ops.sqrt x * ops.sqrt x = x) :
    (tfIdfVector ops idfT tokens ≠ [] → sumSquares (tfIdfVector ops idfT tokens) = 1) ∧
    (tfIdfVector ops idfT tokens = [] → sumSquares (tfIdfVector ops idfT tokens) = 0) := by
  constructor
  · intro hne
    have hvec : rawTfIdf ops idfT tokens ≠ [] := by
      intro h0
      exact hne (by unfold tfIdfVector; rw [h0]; rfl)
    have hSpos : 0 < sumSquares (rawTfIdf ops idfT tokens) := by
      refine List.sum_pos _ ?_ (by
        intro h0
        exact hvec (List.map_eq_nil_iff.mp h0))
      intro x hx
      obtain ⟨p, hp, rfl⟩ := List.mem_map.mp hx
      exact mul_self_pos.mpr (rawTfIdf_ne_zero p hp)
    obtain ⟨hs0, hss⟩ := hsq (sumSquares (rawTfIdf ops idfT tokens))
      (le_of_lt hSpos)
    have hn0 : ops.sqrt (sumSquares (rawTfIdf ops idfT tokens)) ≠ 0 := by
      intro h0
      rw [h0, mul_zero] at hss
      exact absurd hss.symm (ne_of_gt hSpos)
    show sumSquares ((rawTfIdf ops idfT tokens).map _) = 1
    rw [if_neg hn0, sumSquares_map_div, hss, div_self (ne_of_gt hSpos)]
  · intro h
    rw [h]
    rfl

/-- C6: after every `ingest`, every stored entry vector, and every
query vector built by `detect`, has squared Euclidean norm exactly 1
whenever it has at least one non-zero weight, and the empty vector has
norm 0 (stated on the squared norm, which stays inside the score
field; `hsq` says that `sqrt` genuinely is a square root on
non-negative inputs, as `Math.sqrt` is). -/
theorem c6_vector_norm (ops : MathOps K)
    (hsq : ∀ x : K, 0 ≤ x → 0 ≤ ops.sqrt x ∧ ops.sqrt x * ops.sqrt x = x)
    (entries : List TaxonomyEntry) (title : String) :
    (∀ v ∈ (ingestD ops entries).vectors,
        ((∃ p ∈ v, p.2 ≠ 0) → sumSquares v = 1) ∧ (v = [] → sumSquares v = 0)) ∧
    ((∃ p ∈ queryVec ops (ingestD ops entries) title, p.2 ≠ 0) →
        sumSquares (queryVec ops (ingestD ops entries) title) = 1) ∧
    (queryVec ops (ingestD ops entries) title = [] →
        sumSquares (queryVec ops (ingestD ops entries) title) = 0) := by
  have key : ∀ idfT tokens,
      ((∃ p ∈ tfIdfVector ops idfT tokens, p.2 ≠ 0) →
        sumSquares (tfIdfVector ops idfT tokens) = 1) ∧
      (tfIdfVector ops idfT tokens = [] →
        sumSquares (tfIdfVector ops idfT tokens) = 0) := by
    intro idfT tokens
    obtain ⟨h1, h2⟩ := tfIdfVector_normSq ops idfT tokens hsq
    refine ⟨?_, h2⟩
    intro hex
    refine h1 ?_
    obtain ⟨p, hp, _⟩ := hex
    intro h0
    rw [h0] at hp
    exact absurd hp (List.not_mem_nil p)
  constructor
  · intro v hv
    have : (ingestD ops entries).vectors =
        (entries.map categoryTokens).map
          (tfIdfVector ops (ingestD ops entries).idf) := rfl
    rw [this] at hv
    obtain ⟨doc, _, rfl⟩ := List.mem_map.mp hv
    exact key _ doc
  · exact key (ingestD ops entries).idf (tokenize title)

/-- C1 (amended): `detect` is a pure function of the index state, the
title and the options, so two identical calls give identical ordered
output definitionally; entries with equal adjusted scores appear in the
output ordered by ascending ingestion position, which coincides with
ascending entry id whenever the ingested entry sequence has strictly
increasing ids (the hypothesis `hmono`) — but not in general, see the
counterexample. -/
theorem c1_tie_order (ops : MathOps K) (entries : List TaxonomyEntry)
    (title : String) (opts : DetectorOptions K) (cs : List (Candidate K))
    (hmono : List.Pairwise (fun e1 e2 => e1.id < e2.id) entries)
    (h : detectD ops (ingestD ops entries) title opts = Except.ok cs) :
    detectD ops (ingestD ops entries) title opts =
      detectD ops (ingestD ops entries) title opts ∧
    List.Pairwise (fun a b : Candidate K => a.score = b.score → a.id < b.id) cs := by
  refine ⟨rfl, ?_⟩
  obtain rfl := detectD_ok h
  have hpair : List.Pairwise
      (fun a b : Scored K => scoredRel a b ∧ a.idx ≠ b.idx)
      (rankScored (scoredList ops (ingestD ops entries) title opts)) := by
    refine List.Pairwise.and (rankScored_pairwise _) ?_
    have hperm : ((rankScored (scoredList ops (ingestD ops entries) title opts)).map
          (fun sc => sc.idx)).Perm
        ((scoredList ops (ingestD ops entries) title opts).map (fun sc => sc.idx)) :=
      (rankScored_perm _).map _
    have hnd := (hperm.nodup_iff).mpr (scoredList_idx_nodup _ _ _ _)
    exact List.pairwise_map.mp hnd
  have htop : List.Pairwise
      (fun a b : Scored K => scoredRel a b ∧ a.idx ≠ b.idx)
      (detectTop ops (ingestD ops entries) title opts) :=
    List.Pairwise.sublist (List.take_sublist _ _) hpair
  have hid : List.Pairwise
      (fun a b : Scored K => a.score = b.score → a.entry.id < b.entry.id)
      (detectTop ops (ingestD ops entries) title opts) := by
    refine List.Pairwise.imp_of_mem ?_ htop
    intro a b ha hb hab
    intro heq
    have hidx : a.idx < b.idx := by
      rcases hab.1 with hlt | ⟨_, hle⟩
      · rw [heq] at hlt
        exact absurd hlt (lt_irrefl _)
      · exact lt_of_le_of_ne hle hab.2
    obtain ⟨-, va, hza⟩ := mem_scoredList (mem_detectTop ha)
    obtain ⟨-, vb, hzb⟩ := mem_scoredList (mem_detectTop hb)
    have hea := (List.getElem?_zip_eq_some.mp hza).1
    have heb := (List.getElem?_zip_eq_some.mp hzb).1
    obtain ⟨hia, hga⟩ := List.getElem?_eq_some.mp hea
    obtain ⟨hib, hgb⟩ := List.getElem?_eq_some.mp heb
    have hmono' : List.Pairwise (fun e1 e2 => e1.id < e2.id)
        (ingestD ops entries).entries := hmono
    have hlt := List.pairwise_iff_getElem.mp hmono' a.idx b.idx hia hib hidx
    rw [hga, hgb] at hlt
    exact hlt
  unfold detectCands
  exact pairwise_zipWith hid (fun a b p q h1 => h1)

/-! ## Normalizer character-set lemmas -/

theorem mem_squeezeSpaces : ∀ {l : List Char} {c : Char},
    c ∈ squeezeSpaces l → c ∈ l
  | [], c, h => by rw [squeezeSpaces] at h; exact h
  | [a], c, h => by rw [squeezeSpaces] at h; exact h
  | a :: b :: t, c, h => by
    rw [squeezeSpaces] at h
    by_cases hs : (a == spaceChar && b == spaceChar) = true
    · rw [if_pos hs] at h
      exact List.mem_cons_of_mem a (mem_squeezeSpaces h)
    · rw [if_neg hs] at h
      rcases List.mem_cons.mp h with rfl | h2
      · exact List.mem_cons_self _ _
      · exact List.mem_cons_of_mem a (mem_squeezeSpaces h2)

theorem mem_trimChars {l : List Char} {c : Char} (h : c ∈ trimChars l) : c ∈ l := by
  unfold trimChars at h
  rw [List.mem_reverse] at h
  have h2 := (List.dropWhile_sublist _).subset h
  rw [List.mem_reverse] at h2
  exact (List.dropWhile_sublist _).subset h2

/-- Every character surviving the strip and whitespace-collapse steps
lies in the amended whitelist (spec set plus the straight apostrophe). -/
theorem allowed_wsChar_stripChar (c : Char) :
    specC7AllowedAmended (wsChar (stripChar c)) = true := by
  by_cases hk : keepChar c = true
  · unfold stripChar
    rw [if_pos hk]
    by_cases hw : isJsWs c = true
    · unfold wsChar
      rw [if_pos hw]
      decide
    · unfold wsChar
      rw [if_neg hw]
      simp only [keepChar, Bool.or_eq_true] at hk
      simp only [specC7AllowedAmended, specC7Allowed, Char.isAlpha, Bool.or_eq_true]
      rcases hk with ((((((h | h) | h) | h) | h) | h) | h) | h
      · exact Or.inl (Or.inl (Or.inl (Or.inl (Or.inl (Or.inl (Or.inl (Or.inr h)))))))
      · exact Or.inl (Or.inl (Or.inl (Or.inl (Or.inl (Or.inl (Or.inr h))))))
      · exact absurd h (by simp [hw])
      · exact Or.inr h
      · exact Or.inl (Or.inl (Or.inl (Or.inl (Or.inr h))))
      · exact Or.inl (Or.inl (Or.inl (Or.inr h)))
      · exact Or.inl (Or.inl (Or.inr h))
      · exact Or.inl (Or.inr h)
  · unfold stripChar
    rw [if_neg hk]
    decide

/-- C7 (amended): after lower-casing, quote straightening, stripping,
whitespace collapsing and trimming, every character of the normalizer
output is a letter, a digit, whitespace, or one of the five whitelist
characters apostrophe, plus, ampersand, slash, hyphen — the code keeps
the straight apostrophe beside the four characters the claim lists. -/
theorem c7_allowed_chars (s : String) :
    ∀ c ∈ (normalize s).toList, specC7AllowedAmended c = true := by
  intro c hc
  have hc1 : c ∈ trimChars (collapseWs
      ((s.toList.map Char.toLower).map (fun x => stripChar (quoteChar x)))) := hc
  have hc2 := mem_trimChars hc1
  unfold collapseWs at hc2
  have hc3 := mem_squeezeSpaces hc2
  obtain ⟨x, hx, rfl⟩ := List.mem_map.mp hc3
  obtain ⟨y, _, rfl⟩ := List.mem_map.mp hx
  exact allowed_wsChar_stripChar (quoteChar y)

/-- C7 counterexample: normalizing the string `d’a` (with a curly
quote, exercising the spec's own quote-replacement step) yields `d'a`,
whose middle character — the straight apostrophe — lies outside the
whitelist of the claim, which admits only letters, digits, whitespace,
plus, ampersand, slash and hyphen. -/
theorem c7_counterexample :
    apos ∈ (normalize (String.mk [Char.ofNat 100, Char.ofNat 8217, Char.ofNat 97])).toList ∧
    specC7Allowed apos = false := by decide

/-! ## Loader lemmas -/

/-- The shared per-line parser returns nothing exactly on the lines the
specification says are skipped. -/
theorem entryOfLineCore_eq_none_iff (line : String) :
    entryOfLineCore line = none ↔ specSkippable line = true := by
  unfold entryOfLineCore specSkippable
  by_cases h1 : (jsTrim line).isEmpty = true
  · rw [if_pos h1]
    simp [h1]
  · rw [if_neg h1]
    by_cases h2 : ((jsTrim line).toList.headD spaceChar == Char.ofNat 35) = true
    · rw [if_pos h2]
      simp at h2
      simp [h1, h2]
    · rw [if_neg h2]
      simp at h2
      cases h3 : matchIdLine (jsTrim line) with
      | none => simp [h1, h2, h3]
      | some p =>
        obtain ⟨pid, praw⟩ := p
        simp [h1, h2, h3]

/-- C8 (amended): the parser is the per-line map over the split lines;
a line skippable in the spec sense produces nothing, and a
non-skippable line produces exactly one candidate entry whose `leaf` is
the last trimmed breadcrumb segment and whose `depth` is the segment
count — but the entry reaches the output only when its first breadcrumb
segment is `Electronics` (the prototype restricts the taxonomy to the
Electronics subtree), which the claim did not state. -/
theorem c8_loader (text line : String) :
    parseTaxonomyText text = (splitLines text).filterMap entryOfLine ∧
    (specSkippable line = true → entryOfLine line = none) ∧
    (specSkippable line = false →
      ∃ e, entryOfLineCore line = some e ∧
        e.leaf = (segmentsOf e.path).getLastD ("") ∧
        e.depth = (segmentsOf e.path).length ∧
        entryOfLine line =
          (if (segmentsOf e.path).headD ("") = ("Electronics") then some e else none)) := by
  refine ⟨rfl, ?_, ?_⟩
  · intro hskip
    have hnone : entryOfLineCore line = none :=
      (entryOfLineCore_eq_none_iff line).mpr hskip
    unfold entryOfLine
    rw [hnone]
  · intro hns
    cases hcore : entryOfLineCore line with
    | none =>
      rw [(entryOfLineCore_eq_none_iff line).mp hcore] at hns
      exact absurd hns (by simp)
    | some e =>
      have hfields : e.leaf = (segmentsOf e.path).getLastD ("") ∧
          e.depth = (segmentsOf e.path).length := by
        unfold entryOfLineCore at hcore
        split at hcore
        · exact absurd hcore (by simp)
        · split at hcore
          · exact absurd hcore (by simp)
          · split at hcore
            · exact absurd hcore (by simp)
            · obtain rfl := Option.some.inj hcore
              exact ⟨rfl, rfl⟩
      refine ⟨e, rfl, hfields.1, hfields.2, ?_⟩
      unfold entryOfLine
      rw [hcore]

/-- C8 counterexample: the line `1 - Animals > Pets` is not skippable
in the spec sense (non-empty, no comment marker, and it matches the id
regex), yet the parser of `detectCategory.ts` produces no entry for it,
because its first breadcrumb segment is not `Electronics`. -/
theorem c8_counterexample :
    specSkippable ("1 - Animals > Pets") = false ∧
    parseTaxonomyText ("1 - Animals > Pets") = [] := by decide

/-! ## Snapshot map lemmas -/

theorem getLast?_cons_or {α : Type} (a : α) (l : List α) :
    (a :: l).getLast? = (l.getLast?).or (some a) := by
  induction l generalizing a with
  | nil => rfl
  | cons b t ih =>
    rw [List.getLast?_cons_cons, ih b, Option.or_assoc]
    rfl

theorem mapSet_keys (m : List (Nat × TaxonomyEntry)) (k : Nat) (v : TaxonomyEntry) :
    (mapSet m k v).map Prod.fst =
      if k ∈ m.map Prod.fst then m.map Prod.fst else m.map Prod.fst ++ [k] := by
  induction m with
  | nil => simp [mapSet]
  | cons a t ih =>
    obtain ⟨k0, v0⟩ := a
    by_cases hk : k0 = k
    · subst hk
      simp [mapSet]
    · simp only [mapSet, if_neg hk, List.map_cons, ih]
      by_cases hm : k ∈ t.map Prod.fst
      · simp [hm, Ne.symm hk]
      · simp [hm, Ne.symm hk]

theorem nodup_mapSet {m : List (Nat × TaxonomyEntry)} (k : Nat) (v : TaxonomyEntry)
    (h : (m.map Prod.fst).Nodup) : ((mapSet m k v).map Prod.fst).Nodup := by
  rw [mapSet_keys]
  by_cases hm : k ∈ m.map Prod.fst
  · rw [if_pos hm]
    exact h
  · rw [if_neg hm]
    refine List.Nodup.append h (List.nodup_singleton k) ?_
    intro x hx hxk
    rw [List.mem_singleton] at hxk
    exact hm (hxk ▸ hx)

theorem lookup_mapSet (m : List (Nat × TaxonomyEntry)) (k : Nat) (v : TaxonomyEntry)
    (j : Nat) :
    List.lookup j (mapSet m k v) = if j = k then some v else List.lookup j m := by
  induction m with
  | nil =>
    by_cases hj : j = k
    · subst hj
      simp [mapSet, List.lookup]
    · simp [mapSet, List.lookup, beq_eq_false_iff_ne.mpr hj, hj]
  | cons a t ih =>
    obtain ⟨k0, v0⟩ := a
    by_cases hk : k0 = k
    · subst hk
      by_cases hj : j = k0
      · subst hj
        simp [mapSet, List.lookup]
      · simp [mapSet, List.lookup, beq_eq_false_iff_ne.mpr hj, hj]
    · rw [show mapSet ((k0, v0) :: t) k v = (k0, v0) :: mapSet t k v from by
        simp [mapSet, hk]]
      by_cases hj : j = k0
      · subst hj
        simp [List.lookup, hk]
      · simp only [List.lookup, beq_eq_false_iff_ne.mpr hj, ih]

theorem lookup_foldl_mapSet (es : List TaxonomyEntry) (m : List (Nat × TaxonomyEntry))
    (i : Nat) :
    List.lookup i (es.foldl (fun m e => mapSet m e.id e) m) =
      ((es.filter (fun e => e.id == i)).getLast?).or (List.lookup i m) := by
  induction es generalizing m with
  | nil => simp
  | cons e t ih =>
    rw [List.foldl_cons, ih]
    by_cases hid : e.id = i
    · rw [List.filter_cons, if_pos (by simpa using hid), getLast?_cons_or,
        Option.or_assoc, lookup_mapSet]
      rw [if_pos hid.symm]
      rfl
    · rw [List.filter_cons, if_neg (by simpa using hid), lookup_mapSet,
        if_neg (fun hji => hid hji.symm)]

theorem nodup_foldl_mapSet (es : List TaxonomyEntry) (m : List (Nat × TaxonomyEntry))
    (h : (m.map Prod.fst).Nodup) :
    (((es.foldl (fun m e => mapSet m e.id e) m)).map Prod.fst).Nodup := by
  induction es generalizing m with
  | nil => exact h
  | cons e t ih => exact ih _ (nodup_mapSet e.id e h)

/-- C9: in the snapshot map built by `getPossibleCategories`
(`entries.forEach(e => map.set(e.id, e))` on a JS `Map`), ids are
unique keys, and when the entry list contains several entries with the
same id the later one deterministically wins: looking an id up yields
exactly the last entry carrying it. -/
theorem c9_unique_ids (es : List TaxonomyEntry) :
    ((buildCategoryMap es).map Prod.fst).Nodup ∧
    ∀ i : Nat, List.lookup i (buildCategoryMap es) =
      (es.filter (fun e => e.id == i)).getLast? := by
  constructor
  · exact nodup_foldl_mapSet es [] (by simp)
  · intro i
    unfold buildCategoryMap
    rw [lookup_foldl_mapSet]
    simp [List.lookup]

/-! ## Concrete evaluations of the model -/

theorem qOps_log (x : ℚ) : qOps.log x = 0 := rfl
theorem qOps_exp (x : ℚ) : qOps.exp x = 1 := rfl
theorem qOps_sqrt (x : ℚ) : qOps.sqrt x = 0 := rfl

set_option maxHeartbeats 1000000 in
theorem ingest_tie_idf :
    (ingestD qOps [entB, entA]).idf = [(("b2"), (1:ℚ)), (("a2"), 1)] := by
  have h1 : categoryTokens entB = [("b2")] := by decide
  have h2 : categoryTokens entA = [("a2")] := by decide
  have h3 : docFreqOf [[("b2")], [("a2")]] = [(("b2"), 1), (("a2"), 1)] := by decide
  simp [ingestD, h1, h2, h3, qOps_log]

set_option maxHeartbeats 1000000 in
theorem ingest_tie_vectors :
    (ingestD qOps [entB, entA]).vectors = [[(("b2"), (1:ℚ))], [(("a2"), 1)]] := by
  have h1 : categoryTokens entB = [("b2")] := by decide
  have h2 : categoryTokens entA = [("a2")] := by decide
  have h3 : docFreqOf [[("b2")], [("a2")]] = [(("b2"), 1), (("a2"), 1)] := by decide
  have h4 : countTokens [("b2")] = [(("b2"), 1)] := by decide
  have h5 : countTokens [("a2")] = [(("a2"), 1)] := by decide
  simp [ingestD, h1, h2, h3, tfIdfVector, rawTfIdf, logTf, h4, h5, idfLookup,
    List.lookup, sumSquares, qOps_log, qOps_sqrt]

theorem queryVec_tie : queryVec qOps (ingestD qOps [entB, entA]) ("zzz") = [] := by
  have ht : tokenize ("zzz") = [("zzz")] := by decide
  have hc : countTokens [("zzz")] = [(("zzz"), 1)] := by decide
  simp only [queryVec, ingest_tie_idf, ht]
  simp [tfIdfVector, rawTfIdf, logTf, hc, idfLookup, List.lookup, qOps_log]

set_option maxHeartbeats 1600000 in
/-- Evaluating `detect` on two tied entries ingested in descending id
order: the output preserves the ingestion order, ids `[2, 1]`. -/
theorem detect_tie_eval :
    detectD qOps (ingestD qOps [entB, entA]) ("zzz") (defaultOptions ℚ) =
      Except.ok [⟨2, ("B > B2"), ("B2"), 2, 0, 1/2⟩, ⟨1, ("A > A2"), ("A2"), 2, 0, 1/2⟩] := by
  have hE : (ingestD qOps [entB, entA]).entries = [entB, entA] := by simp [ingestD]
  have hBlen : (jsToLower entB.leaf).length = 2 := by decide
  have hAlen : (jsToLower entA.leaf).length = 2 := by decide
  have hBd : entB.depth = 2 := rfl
  have hAd : entA.depth = 2 := rfl
  simp only [detectD, detectCands, detectTop, hE, ingest_tie_vectors, scoredList,
    queryVec_tie, scoreEntry, defaultOptions, adjustScore, cosineSim, dotList, rankScored, List.insertionSort,
    List.orderedInsert, scoredRel, softmaxD, softmaxExps, listMax, qOps_exp, hBlen,
    hAlen, hBd, hAd, List.zip_cons_cons, List.zip_nil_right, List.enum, List.enumFrom,
    List.filterMap_cons, List.filterMap_nil, List.isEmpty_cons, List.length_nil,
    List.length_cons, List.map_cons, List.map_nil, List.take_succ_cons, List.take_nil,
    List.zipWith_cons_cons, List.zipWith_nil_right, List.sum_cons, List.sum_nil,
    List.foldl_cons, List.foldl_nil]
  norm_num [entA, entB]

set_option maxHeartbeats 1000000 in
theorem ingest_asc_idf :
    (ingestD qOps [entA, entB]).idf = [(("a2"), (1:ℚ)), (("b2"), 1)] := by
  have h1 : categoryTokens entB = [("b2")] := by decide
  have h2 : categoryTokens entA = [("a2")] := by decide
  have h3 : docFreqOf [[("a2")], [("b2")]] = [(("a2"), 1), (("b2"), 1)] := by decide
  simp [ingestD, h1, h2, h3, qOps_log]

set_option maxHeartbeats 1000000 in
theorem ingest_asc_vectors :
    (ingestD qOps [entA, entB]).vectors = [[(("a2"), (1:ℚ))], [(("b2"), 1)]] := by
  have h1 : categoryTokens entB = [("b2")] := by decide
  have h2 : categoryTokens entA = [("a2")] := by decide
  have h3 : docFreqOf [[("a2")], [("b2")]] = [(("a2"), 1), (("b2"), 1)] := by decide
  have h4 : countTokens [("b2")] = [(("b2"), 1)] := by decide
  have h5 : countTokens [("a2")] = [(("a2"), 1)] := by decide
  simp [ingestD, h1, h2, h3, tfIdfVector, rawTfIdf, logTf, h4, h5, idfLookup,
    List.lookup, sumSquares, qOps_log, qOps_sqrt]

theorem queryVec_asc : queryVec qOps (ingestD qOps [entA, entB]) ("zzz") = [] := by
  have ht : tokenize ("zzz") = [("zzz")] := by decide
  have hc : countTokens [("zzz")] = [(("zzz"), 1)] := by decide
  simp only [queryVec, ingest_asc_idf, ht]
  simp [tfIdfVector, rawTfIdf, logTf, hc, idfLookup, List.lookup, qOps_log]

set_option maxHeartbeats 1600000 in
/-- Evaluating `detect` on the same two tied entries ingested in
ascending id order: output ids `[1, 2]`. -/
theorem detect_asc_eval :
    detectD qOps (ingestD qOps [entA, entB]) ("zzz") (defaultOptions ℚ) =
      Except.ok [⟨1, ("A > A2"), ("A2"), 2, 0, 1/2⟩, ⟨2, ("B > B2"), ("B2"), 2, 0, 1/2⟩] := by
  have hE : (ingestD qOps [entA, entB]).entries = [entA, entB] := by simp [ingestD]
  have hBlen : (jsToLower entB.leaf).length = 2 := by decide
  have hAlen : (jsToLower entA.leaf).length = 2 := by decide
  have hBd : entB.depth = 2 := rfl
  have hAd : entA.depth = 2 := rfl
  simp only [detectD, detectCands, detectTop, hE, ingest_asc_vectors, scoredList,
    queryVec_asc, scoreEntry, defaultOptions, adjustScore, cosineSim, dotList, rankScored, List.insertionSort,
    List.orderedInsert, scoredRel, softmaxD, softmaxExps, listMax, qOps_exp, hBlen,
    hAlen, hBd, hAd, List.zip_cons_cons, List.zip_nil_right, List.enum, List.enumFrom,
    List.filterMap_cons, List.filterMap_nil, List.isEmpty_cons, List.length_nil,
    List.length_cons, List.map_cons, List.map_nil, List.take_succ_cons, List.take_nil,
    List.zipWith_cons_cons, List.zipWith_nil_right, List.sum_cons, List.sum_nil,
    List.foldl_cons, List.foldl_nil]
  norm_num [entA, entB]

/-- C1 counterexample: ingest `[entB (id 2), entA (id 1)]` and query a
title sharing no token with any category.  All adjusted scores tie at
0, and the output lists id 2 before id 1 — identical scores are NOT
ordered by ascending entry id, refuting the claim as stated (the code
tie-breaks by ingestion position, the JS stable sort order). -/
theorem c1_counterexample :
    detectD qOps (ingestD qOps [entB, entA]) ("zzz") (defaultOptions ℚ) =
      Except.ok [⟨2, ("B > B2"), ("B2"), 2, 0, 1/2⟩, ⟨1, ("A > A2"), ("A2"), 2, 0, 1/2⟩] ∧
    ¬ List.Pairwise (fun a b : Candidate ℚ => a.score = b.score → a.id < b.id)
      [⟨2, ("B > B2"), ("B2"), 2, 0, 1/2⟩, ⟨1, ("A > A2"), ("A2"), 2, 0, 1/2⟩] :=
  ⟨detect_tie_eval, by decide⟩

/-- Witness for the amended C1 at a concrete run: with ids ingested in
ascending order the tied candidates do come out in ascending id order. -/
theorem c1_witness :
    List.Pairwise (fun e1 e2 : TaxonomyEntry => e1.id < e2.id) [entA, entB] ∧
    List.Pairwise (fun a b : Candidate ℚ => a.score = b.score → a.id < b.id)
      [⟨1, ("A > A2"), ("A2"), 2, 0, 1/2⟩, ⟨2, ("B > B2"), ("B2"), 2, 0, 1/2⟩] :=
  ⟨by decide,
    (c1_tie_order qOps [entA, entB] ("zzz") (defaultOptions ℚ) _
      (by decide) detect_asc_eval).2⟩

set_option maxHeartbeats 1000000 in
theorem ingest_phone_idf :
    (ingestD qOps [entE]).idf = [(("electronics"), (1:ℚ)), (("phones"), 1)] := by
  have h1 : categoryTokens entE = [("electronics"), ("phones")] := by decide
  have h3 : docFreqOf [[("electronics"), ("phones")]] =
      [(("electronics"), 1), (("phones"), 1)] := by decide
  simp [ingestD, h1, h3, qOps_log]

set_option maxHeartbeats 1000000 in
theorem ingest_phone_vectors :
    (ingestD qOps [entE]).vectors = [[(("electronics"), (1:ℚ)), (("phones"), 1)]] := by
  have h1 : categoryTokens entE = [("electronics"), ("phones")] := by decide
  have h3 : docFreqOf [[("electronics"), ("phones")]] =
      [(("electronics"), 1), (("phones"), 1)] := by decide
  have h4 : countTokens [("electronics"), ("phones")] =
      [(("electronics"), 1), (("phones"), 1)] := by decide
  simp [ingestD, h1, h3, tfIdfVector, rawTfIdf, logTf, h4, idfLookup,
    List.lookup, sumSquares, qOps_log, qOps_sqrt]

theorem queryVec_phone :
    queryVec qOps (ingestD qOps [entE]) ("phones") = [(("phones"), (1:ℚ))] := by
  have ht : tokenize ("phones") = [("phones")] := by decide
  have hc : countTokens [("phones")] = [(("phones"), 1)] := by decide
  simp only [queryVec, ingest_phone_idf, ht]
  simp [tfIdfVector, rawTfIdf, logTf, hc, idfLookup, List.lookup, qOps_log, qOps_sqrt,
    sumSquares]

set_option maxHeartbeats 1600000 in
/-- Evaluating the full pipeline on one Electronics entry matched by
the query: cosine 1, depth boost 1.06, leaf-phrase boost +0.15,
shallow penalty 0.92 give the adjusted score 2783/2500 = 1.1132, and
the softmax of the single selected score is the probability 1. -/
theorem detect_phone_eval :
    detectD qOps (ingestD qOps [entE]) ("phones") (facadeOpts ℚ) =
      Except.ok [⟨1, ("Electronics > Phones"), ("Phones"), 2, 2783/2500, 1⟩] := by
  have hE : (ingestD qOps [entE]).entries = [entE] := by simp [ingestD]
  have hlen : (jsToLower entE.leaf).length = 6 := by decide
  have hsub : containsSub (jsToLower entE.leaf).toList ((jsToLower ("phones")).toList) =
      true := by decide
  have hEd : entE.depth = 2 := rfl
  simp only [detectD, detectCands, detectTop, scoredList]
  simp only [hE, ingest_phone_vectors, queryVec_phone]
  simp only [scoreEntry, facadeOpts, adjustScore, cosineSim, dotList, rankScored,
    List.insertionSort, List.orderedInsert, scoredRel, softmaxD, softmaxExps, listMax,
    qOps_exp, hlen, hsub, hEd, List.zip_cons_cons, List.zip_nil_right, List.enum,
    List.enumFrom, List.filterMap_cons, List.filterMap_nil, List.isEmpty_cons,
    List.length_nil, List.length_cons, List.map_cons, List.map_nil, List.take_succ_cons,
    List.take_nil, List.zipWith_cons_cons, List.zipWith_nil_right, List.sum_cons,
    List.sum_nil, List.foldl_cons, List.foldl_nil, List.lookup, min_def]
  simp [entE]
  norm_num

/-- Witness for C2 at a concrete run: the facade options demand
`minDepth = 2` and the returned candidate indeed has depth ≥ 2. -/
theorem c2_witness :
    detectD qOps (ingestD qOps [entE]) ("phones") (facadeOpts ℚ) =
      Except.ok [⟨1, ("Electronics > Phones"), ("Phones"), 2, 2783/2500, 1⟩] ∧
    (facadeOpts ℚ).minDepth ≤
      (⟨1, ("Electronics > Phones"), ("Phones"), 2, 2783/2500, 1⟩ : Candidate ℚ).depth :=
  ⟨detect_phone_eval,
    c2_depth_filter qOps [entE] ("phones") (facadeOpts ℚ) _ detect_phone_eval _
      (List.mem_singleton_self _)⟩

/-- Witness for C3 at a concrete run: the softmax denominator is
non-zero and the probabilities of the returned batch sum to 1. -/
theorem c3_witness :
    softmaxDenom qOps (facadeOpts ℚ).temperature
      (([⟨1, ("Electronics > Phones"), ("Phones"), 2, 2783/2500, 1⟩] :
          List (Candidate ℚ)).map (fun c => c.score)) ≠ 0 ∧
    (([⟨1, ("Electronics > Phones"), ("Phones"), 2, 2783/2500, 1⟩] :
        List (Candidate ℚ)).map (fun c => c.probability)).sum = 1 := by
  have hden : softmaxDenom qOps (facadeOpts ℚ).temperature
      (([⟨1, ("Electronics > Phones"), ("Phones"), 2, 2783/2500, 1⟩] :
          List (Candidate ℚ)).map (fun c => c.score)) ≠ 0 := by
    simp only [softmaxDenom, softmaxExps, listMax, List.map_cons, List.map_nil,
      qOps_exp, List.sum_cons, List.sum_nil]
    norm_num
  exact ⟨hden,
    (c3_probability_mass qOps (ingestD qOps [entE]) ("phones") (facadeOpts ℚ) _
      detect_phone_eval).1 hden⟩

/-- Witness for C5 at a concrete run: the facade returns the id and
path of the single top-ranked candidate. -/
theorem c5_witness :
    detectD qOps (ingestD qOps [entE]) ("phones") (facadeOpts ℚ) =
      Except.ok [⟨1, ("Electronics > Phones"), ("Phones"), 2, 2783/2500, 1⟩] ∧
    detectCategoryM qOps [entE] ("phones") =
      Except.ok ⟨1, ("Electronics > Phones")⟩ :=
  ⟨detect_phone_eval,
    (c5_facade qOps [entE] ("phones")).2.2.1 _ [] detect_phone_eval⟩

set_option maxHeartbeats 1000000 in
/-- Over `ℝ` with the genuine `Math` functions, ingesting the one-entry
snapshot `Phones` builds the single normalized vector
`[(phones, 1)]` (tf 1 + log 1, idf log((1+1)/(1+1)) + 1, norm 1). -/
theorem ingest_real_vectors :
    (ingestD realOps [entPh]).vectors = [[(("phones"), (1:ℝ))]] := by
  have h1 : categoryTokens entPh = [("phones")] := by decide
  have h3 : docFreqOf [[("phones")]] = [(("phones"), 1)] := by decide
  have h4 : countTokens [("phones")] = [(("phones"), 1)] := by decide
  have hlog : realOps.log = Real.log := rfl
  have hsqrt : realOps.sqrt = Real.sqrt := rfl
  simp only [ingestD, h1, h3, List.map_cons, List.map_nil]
  simp only [tfIdfVector, rawTfIdf, logTf, h4, idfLookup, List.lookup, List.map_cons,
    List.map_nil, List.filterMap_cons, List.filterMap_nil, sumSquares, hlog, hsqrt]
  norm_num [Real.log_one, Real.sqrt_one]

/-- Witness for C6 over `ℝ` with the genuine functions: the stored
entry vector is non-empty with non-zero weight, and its squared
Euclidean norm is exactly 1. -/
theorem c6_witness :
    (ingestD realOps [entPh]).vectors = [[(("phones"), (1:ℝ))]] ∧
    sumSquares [(("phones"), (1:ℝ))] = 1 := by
  refine ⟨ingest_real_vectors, ?_⟩
  have h := (c6_vector_norm realOps
      (fun x hx => ⟨Real.sqrt_nonneg x, Real.mul_self_sqrt hx⟩)
      [entPh] ("phones")).1 [(("phones"), (1:ℝ))]
      (by rw [ingest_real_vectors]; exact List.mem_singleton_self _)
  exact h.1 ⟨(("phones"), (1:ℝ)), List.mem_singleton_self _, one_ne_zero⟩

/-- Witness for C7 at a concrete input: the first character of the
normalized `Wi-Fi` is in the amended whitelist. -/
theorem c7_witness :
    Char.ofNat 119 ∈ (normalize ("Wi-Fi")).toList ∧
    specC7AllowedAmended (Char.ofNat 119) = true :=
  ⟨by decide, c7_allowed_chars ("Wi-Fi") (Char.ofNat 119) (by decide)⟩

/-- Witness for C8 at a concrete line: a non-skippable Electronics line
parses into exactly one entry with the stated leaf and depth. -/
theorem c8_witness :
    specSkippable ("5 - Electronics > Audio") = false ∧
    ∃ e, entryOfLineCore ("5 - Electronics > Audio") = some e ∧
      e.leaf = (segmentsOf e.path).getLastD ("") ∧
      e.depth = (segmentsOf e.path).length ∧
      entryOfLine ("5 - Electronics > Audio") =
        (if (segmentsOf e.path).headD ("") = ("Electronics") then some e else none) :=
  ⟨by decide,
    (c8_loader ("5 - Electronics > Audio") ("5 - Electronics > Audio")).2.2 (by decide)⟩

end RNW
